import Mathlib

/-!
Shallow embedding of `enumchecker.py`: a two-pass static checker that first
collects `Enum` class declarations (class name ↦ set of member names) from a
set of python files and then re-scans the same files for attribute accesses
`Target.member` whose `Target` names a collected enum class but whose `member`
is not one of its declared members (nor a built-in `Enum` attribute).

The python AST is embedded as a closed inductive family covering the node
kinds the checker's code branches on (`ast.Name`, `ast.Attribute`, class and
function definitions, assignments) plus representative "other" expression
shapes (`ast.Call`, `ast.Subscript`, constants, tuples) that exercise the
checker's fall-through branches.  Only attribute nodes carry their `lineno`
field, because `lineno` of no other node kind is ever consulted by the code
(only members of `badnodes` are, and those are all attribute nodes).
-/

namespace Enumchecker

/-- Python expressions (`ast.expr`), restricted to a closed set of shapes. -/
inductive Expr where
  | name (id : String)
  | attribute (value : Expr) (attr : String) (lineno : Nat)
  | call (func : Expr) (args : List Expr)
  | subscript (value : Expr) (slice : Expr)
  | constant
  | tuple (elts : List Expr)

/-- Python statements (`ast.stmt`), restricted to a closed set of shapes.
`classDef` keeps the fields `visit_ClassDef` and `is_enum_class` read
(`name`, `bases`, `body`); decorator lists and keywords are not modelled. -/
inductive Stmt where
  | assign (targets : List Expr) (value : Expr)
  | classDef (nm : String) (bases : List Expr) (body : List Stmt)
  | functionDef (nm : String) (body : List Stmt)
  | exprStmt (value : Expr)
  | pass

/-- The type `ast.Module`: its `body` list of statements. -/
abbrev Module := List Stmt

/-- An arbitrary AST node (`ast.AST`), the argument type of `is_enum_class`. -/
inductive Node where
  | stmt (s : Stmt)
  | expr (e : Expr)

/-- The `lineno` field read off a flagged node (`badnode.lineno`); flagged
nodes are always attribute nodes. -/
def Expr.lineno : Expr → Nat
  | .attribute _ _ l => l
  | _ => 0

/-- The collected enum data, `Dict[str, Set[str]]`, as an association list
with python-dict update semantics (`dictInsert`). -/
abbrev Registry := List (String × Finset String)

/-- Dict lookup, `d[k]` / `k in d`: the value at the first entry with key `k`. -/
def dictGet? (d : Registry) (k : String) : Option (Finset String) :=
  (d.find? (fun p => p.1 == k)).map (·.2)

/-- Dict assignment `d[k] = v`: overwrite the entry if the key is present,
otherwise append a new entry (python dicts keep insertion order). -/
def dictInsert (d : Registry) (k : String) (v : Finset String) : Registry :=
  if d.any (fun p => p.1 == k) then
    d.map (fun p => if p.1 == k then (k, v) else p)
  else d ++ [(k, v)]

/-!
## Usage scanner (`EnumCheckerVisitor`)

`oklist = set(dir(Enum)) | set(vars(Enum))` is computed by reflection on the
host python's `Enum` type; it enters the embedding as an abstract parameter
`oklist : Finset String`.  `visit` dispatches to `visit_Attribute` on
attribute nodes and to `generic_visit` (visit every child, in field order)
on every other node kind.
-/

/-- The base-expression dispatch at the top of `visit_Attribute`: a `Name`
base yields its `id`, an `Attribute` base yields its `attr` (the last dotted
component), and any other shape makes the method return early. -/
def candidateName : Expr → Option String
  | .name id => some id
  | .attribute _ attr _ => some attr
  | _ => none

/-- The flagging condition of `visit_Attribute`:
`enumclassname in self.enums and node.attr not in self.enums[enumclassname]
and node.attr not in self.oklist`. -/
def attrFlagged (enums : Registry) (oklist : Finset String)
    (cls attr : String) : Bool :=
  match dictGet? enums cls with
  | none => false
  | some mems => decide (attr ∉ mems) && decide (attr ∉ oklist)

mutual

/-- Embeds `EnumCheckerVisitor.visit` on one expression, returning the `badnodes`
appended while visiting it, in traversal order.  On an attribute node this is
`visit_Attribute`: resolve the base via `candidateName` (returning early,
without `generic_visit`, when the base has any other shape), append the node
if `attrFlagged`, then `generic_visit` into the base expression.  All other
expression kinds are `generic_visit`ed in field order. -/
def visitExpr (enums : Registry) (oklist : Finset String) : Expr → List Expr
  | .name _ => []
  | .attribute value attr l =>
    match candidateName value with
    | none => []
    | some cls =>
      (if attrFlagged enums oklist cls attr then [Expr.attribute value attr l]
       else []) ++ visitExpr enums oklist value
  | .call func args => visitExpr enums oklist func ++ visitExprs enums oklist args
  | .subscript value slice =>
      visitExpr enums oklist value ++ visitExpr enums oklist slice
  | .constant => []
  | .tuple elts => visitExprs enums oklist elts

/-- Embeds `generic_visit` over a list field of child expressions. -/
def visitExprs (enums : Registry) (oklist : Finset String) : List Expr → List Expr
  | [] => []
  | e :: es => visitExpr enums oklist e ++ visitExprs enums oklist es

end

mutual

/-- Embeds `EnumCheckerVisitor.visit` on one statement: no statement kind has a
visitor method, so each is `generic_visit`ed into its child nodes in the
AST's field order (`Assign`: targets then value; `ClassDef`: bases then
body). -/
def visitStmt (enums : Registry) (oklist : Finset String) : Stmt → List Expr
  | .assign targets value =>
      visitExprs enums oklist targets ++ visitExpr enums oklist value
  | .classDef _ bases body =>
      visitExprs enums oklist bases ++ visitStmts enums oklist body
  | .functionDef _ body => visitStmts enums oklist body
  | .exprStmt value => visitExpr enums oklist value
  | .pass => []

/-- Embeds `generic_visit` over a list of child statements. -/
def visitStmts (enums : Registry) (oklist : Finset String) : List Stmt → List Expr
  | [] => []
  | s :: ss => visitStmt enums oklist s ++ visitStmts enums oklist ss

end

/-- Visiting a parsed module: the `badnodes` collected by
`self.visitor.visit(ast.parse(self.code))` after the per-file reset
`self.visitor.badnodes = []`. -/
def visitModule (enums : Registry) (oklist : Finset String) (m : Module) :
    List Expr :=
  visitStmts enums oklist m

/-!
## Declaration scanner (`EnumCollectorVisitor` and helpers)
-/

/-- The two exception classes raised during collection. -/
inductive CollectError where
  | duplicateEnumClassError (nm : String)
  | duplicateEnumItemError (nm : String)
  deriving DecidableEq

/-- The list `names` built inside `assignment_names`: for every direct
`ast.Assign` statement of the class body, every target that is a plain
`ast.Name`, in order. -/
def assignmentTargetNames (body : List Stmt) : List String :=
  ((body.filterMap fun s =>
      match s with
      | .assign targets _ => some targets
      | _ => none).flatten).filterMap fun t =>
    match t with
    | .name id => some id
    | _ => none

/-- Embeds `detect_duplicates`: walk the counter of `names` in first-occurrence
order and raise on the first name with count `> 1`; `none` means no
duplicate (the python function returns normally). -/
def detect_duplicates (names : List String) : Option String :=
  names.eraseDups.find? fun nm => 1 < names.count nm

/-- Embeds `assignment_names` applied to a class body: the extracted identifiers
as a set, or the `DuplicateEnumItemError` raised by `detect_duplicates`. -/
def assignment_names (body : List Stmt) : Except CollectError (Finset String) :=
  let names := assignmentTargetNames body
  match detect_duplicates names with
  | some nm => .error (.duplicateEnumItemError nm)
  | none => .ok names.toFinset

/-- Embeds `is_enum_class`: the node is an `ast.ClassDef` and some direct base is a
plain `ast.Name` whose `id` equals the literal `"Enum"`. -/
def is_enum_class : Node → Bool
  | .stmt (.classDef _ bases _) =>
      bases.any fun base =>
        match base with
        | .name id => id == "Enum"
        | _ => false
  | _ => false

mutual

/-- Embeds `EnumCollectorVisitor.visit` on one statement, threading the mutable
`self.enums` dict.  `visit_ClassDef` returns early (no `generic_visit`) for
non-enum classes; otherwise it computes `assignment_names` (which may raise),
raises `DuplicateEnumClassError` when the name is registered with a different
member set, performs `self.enums[node.name] = values` and then
`generic_visit`s into the body.  A raised exception leaves the dict in its
current (partially updated) state — there is no rollback.  Expressions
contain no class definitions, so `generic_visit` of the remaining statement
kinds only needs to descend into child statement lists. -/
def collectStmt (env : Registry) : Stmt → Registry × Option CollectError
  | .classDef nm bases body =>
    if is_enum_class (.stmt (.classDef nm bases body)) then
      match assignment_names body with
      | .error e => (env, some e)
      | .ok values =>
        match dictGet? env nm with
        | some old =>
          if old ≠ values then (env, some (.duplicateEnumClassError nm))
          else collectStmts (dictInsert env nm values) body
        | none => collectStmts (dictInsert env nm values) body
    else (env, none)
  | .functionDef _ body => collectStmts env body
  | .assign _ _ => (env, none)
  | .exprStmt _ => (env, none)
  | .pass => (env, none)

/-- Embeds `generic_visit` over a list of child statements, stopping at the first
raised exception but keeping the dict updates made so far. -/
def collectStmts (env : Registry) : List Stmt → Registry × Option CollectError
  | [] => (env, none)
  | s :: rest =>
    match collectStmt env s with
    | (env2, none) => collectStmts env2 rest
    | (env2, some e) => (env2, some e)

end

/-!
## Files and the two per-file-set phases
-/

/-- One input file: its name, its text (`open(fn).read()`), and the result of
the external parser `ast.parse` on that text — `none` models a raised
`SyntaxError`. -/
structure PyFile where
  name : String
  code : String
  tree : Option Module

/-- The warnings logged by `collect_enums`'s three `except` clauses. -/
inductive LogEvent where
  | duplicateClassWarning (nm : String)
  | duplicateItemWarning (nm : String)
  | parseWarning (filename : String)
  deriving DecidableEq

/-- Which warning each caught collection exception produces. -/
def warnOf : CollectError → LogEvent
  | .duplicateEnumClassError nm => .duplicateClassWarning nm
  | .duplicateEnumItemError nm => .duplicateItemWarning nm

/-- One iteration of the `for fn in filenames` loop of `collect_enums`:
parse the file and visit it with the shared collector visitor; each of the
three `except` clauses logs a warning and continues, keeping whatever the
visitor already wrote into `self.enums`. -/
def collectOne (acc : Registry × List LogEvent) (f : PyFile) :
    Registry × List LogEvent :=
  match f.tree with
  | none => (acc.1, acc.2 ++ [.parseWarning f.name])
  | some m =>
    match collectStmts acc.1 m with
    | (env2, none) => (env2, acc.2)
    | (env2, some e) => (env2, acc.2 ++ [warnOf e])

/-- Embeds `collect_enums`: fold the collector over the file list, starting from the
fresh visitor's empty dict; returns the final registry and the warnings
logged along the way. -/
def collect_enums (files : List PyFile) : Registry × List LogEvent :=
  files.foldl collectOne ([], [])

/-!
## Report builder (`EnumChecker.summary` / `EnumChecker.results`) and
`check_files`
-/

/-- The exceptions that can escape `check_files` (nothing in it catches
anything): the `SyntaxError` raised by `ast.parse` inside `checkfile`, and
the `IndexError` raised by `codelines[lineno - 1]` inside `results`. -/
inductive RunError where
  | parseFailure (filename : String)
  | indexOutOfRange
  deriving DecidableEq

/-- Embeds `self.code.split(os.linesep)` on a POSIX platform, where
`os.linesep = "\n"`: split the character list on every newline. -/
def splitChars : List Char → List (List Char)
  | [] => [[]]
  | c :: rest =>
    if c = '\n' then [] :: splitChars rest
    else
      match splitChars rest with
      | [] => [[c]]
      | l :: ls => (c :: l) :: ls

/-- The `codelines` list of `results`. -/
def splitLines (code : String) : List String :=
  (splitChars code.data).map String.mk

/-- Embeds `EnumChecker.summary`: the number of flagged nodes and the size of the
set of their line numbers. -/
def summary (badnodes : List Expr) : Nat × Nat :=
  (badnodes.length, ((badnodes.map Expr.lineno).toFinset).card)

/-- The generator loop of `EnumChecker.results`: yield
`(lineno, codelines[lineno - 1])` per flagged node, raising `IndexError`
when the index is out of range. -/
def resultsGo (codelines : List String) :
    List Expr → Except RunError (List (Nat × String))
  | [] => .ok []
  | n :: rest =>
    match codelines[n.lineno - 1]? with
    | none => .error .indexOutOfRange
    | some line =>
      match resultsGo codelines rest with
      | .error e => .error e
      | .ok pairs => .ok ((n.lineno, line) :: pairs)

/-- Embeds `EnumChecker.results`: nothing is yielded when `badnodes` (and hence
`suspectlines`) is empty; otherwise the text is split into `codelines` and
one pair is yielded per flagged node. -/
def results (badnodes : List Expr) (code : String) :
    Except RunError (List (Nat × String)) :=
  if badnodes.isEmpty then .ok []
  else
    let suspectlines := badnodes.map Expr.lineno
    if suspectlines.isEmpty then .ok []
    else resultsGo (splitLines code) badnodes

/-- Embeds `EnumChecker.checkfile`: read the file, reset `badnodes`, parse and
visit.  `ast.parse` is not guarded, so a parse failure escapes. -/
def checkfile (enums : Registry) (oklist : Finset String) (f : PyFile) :
    Except RunError (List Expr) :=
  match f.tree with
  | none => .error (.parseFailure f.name)
  | some m => .ok (visitModule enums oklist m)

/-- Embeds `check_files`: for each file run `checkfile`, drain `results`, and count
the file as bad when `summary`'s node count is nonzero.  No `except` clause
surrounds the loop, so the first escaped exception aborts the whole run. -/
def check_files (enums : Registry) (oklist : Finset String) :
    List PyFile → Except RunError Nat
  | [] => .ok 0
  | f :: rest =>
    match checkfile enums oklist f with
    | .error e => .error e
    | .ok bad =>
      match results bad f.code with
      | .error e => .error e
      | .ok _ =>
        match check_files enums oklist rest with
        | .error e => .error e
        | .ok badfiles => .ok ((if bad.length = 0 then 0 else 1) + badfiles)


mutual

/-- A self-contained size measure on expressions, used to show that a node
never occurs among the nodes flagged strictly inside its own base. -/
def Expr.size : Expr → Nat
  | .name _ => 1
  | .attribute value _ _ => 1 + value.size
  | .call func args => 1 + func.size + Expr.sizeList args
  | .subscript value slice => 1 + value.size + slice.size
  | .constant => 1
  | .tuple elts => 1 + Expr.sizeList elts

/-- Total size of a list of expressions. -/
def Expr.sizeList : List Expr → Nat
  | [] => 0
  | e :: es => e.size + Expr.sizeList es

end

-- Equality on `Except` results, for evaluating concrete runs.
deriving instance DecidableEq for Except

/-!
## Theorems
-/

theorem size_le_of_mem_visitExpr (enums : Registry) (oklist : Finset String) :
    ∀ (x b : Expr), b ∈ visitExpr enums oklist x → b.size ≤ x.size := by
  refine visitExpr.induct enums oklist
    (fun x => ∀ b ∈ visitExpr enums oklist x, b.size ≤ x.size)
    (fun xs => ∀ b ∈ visitExprs enums oklist xs, b.size ≤ Expr.sizeList xs)
    ?_ ?_ ?_ ?_ ?_ ?_ ?_ ?_ ?_
  · intro id b hb
    simp [visitExpr] at hb
  · intro value attr l hcand b hb
    simp [visitExpr, hcand] at hb
  · intro value attr l cls hcand ih b hb
    simp [visitExpr, hcand] at hb
    rcases hb with hb | hb
    · rcases hb with ⟨-, rfl⟩
      exact le_refl _
    · have := ih b hb
      simp [Expr.size]
      omega
  · intro func args ih1 ih2 b hb
    simp [visitExpr] at hb
    rcases hb with hb | hb
    · have := ih1 b hb; simp [Expr.size]; omega
    · have := ih2 b hb; simp [Expr.size]; omega
  · intro value slice ih1 ih2 b hb
    simp [visitExpr] at hb
    rcases hb with hb | hb
    · have := ih1 b hb; simp [Expr.size]; omega
    · have := ih2 b hb; simp [Expr.size]; omega
  · intro b hb
    simp [visitExpr] at hb
  · intro elts ih b hb
    simp [visitExpr] at hb
    have := ih b hb; simp [Expr.size]; omega
  · intro b hb
    simp [visitExprs] at hb
  · intro e es ih1 ih2 b hb
    simp [visitExprs] at hb
    rcases hb with hb | hb
    · have := ih1 b hb; simp [Expr.sizeList]; omega
    · have := ih2 b hb; simp [Expr.sizeList]; omega

theorem not_mem_visitExpr_self (enums : Registry) (oklist : Finset String)
    (value : Expr) (attr : String) (l : Nat) :
    Expr.attribute value attr l ∉ visitExpr enums oklist value := by
  intro hmem
  have h := size_le_of_mem_visitExpr enums oklist value _ hmem
  simp [Expr.size] at h

theorem attrFlagged_iff (enums : Registry) (oklist : Finset String)
    (cls attr : String) :
    attrFlagged enums oklist cls attr = true
    ↔ ∃ mems, dictGet? enums cls = some mems ∧ attr ∉ mems ∧ attr ∉ oklist := by
  unfold attrFlagged
  cases h : dictGet? enums cls <;> simp

/-- One-step unfolding of `visit_Attribute` on an attribute node. -/
theorem visitExpr_attribute (enums : Registry) (oklist : Finset String)
    (value : Expr) (attr : String) (l : Nat) :
    visitExpr enums oklist (Expr.attribute value attr l)
    = match candidateName value with
      | none => []
      | some cls =>
        (if attrFlagged enums oklist cls attr
         then [Expr.attribute value attr l] else [])
          ++ visitExpr enums oklist value := rfl

/-- C1: an attribute-access node is recorded as flagged iff its base is a
plain identifier or an attribute access, the candidate class name is
registered, and the member is neither declared nor built-in. -/
theorem C1_usage_flagging_iff (enums : Registry) (oklist : Finset String)
    (value : Expr) (attr : String) (l : Nat) :
    Expr.attribute value attr l
        ∈ visitExpr enums oklist (Expr.attribute value attr l)
    ↔ ∃ cls, ((∃ id, value = Expr.name id ∧ cls = id)
          ∨ ∃ v a ln, value = Expr.attribute v a ln ∧ cls = a)
        ∧ ∃ mems, dictGet? enums cls = some mems
            ∧ attr ∉ mems ∧ attr ∉ oklist := by
  have hne := not_mem_visitExpr_self enums oklist value attr l
  rw [visitExpr_attribute]
  cases value with
  | name id =>
    simp [candidateName, attrFlagged_iff, hne]
  | «attribute» v a ln =>
    simp [candidateName, attrFlagged_iff, hne]
  | call func args => simp [candidateName, hne]
  | subscript v s => simp [candidateName, hne]
  | constant => simp [candidateName, hne]
  | tuple elts => simp [candidateName, hne]

/-- C3 (amended): traversal descends into the base when the base is a plain
identifier or an attribute access, but an attribute node with any other base
shape is skipped without descending. -/
theorem C3_descent_amended (enums : Registry) (oklist : Finset String)
    (value : Expr) (attr : String) (l : Nat) (b : Expr) :
    ((∃ cls, candidateName value = some cls) →
      b ∈ visitExpr enums oklist value →
      b ∈ visitExpr enums oklist (Expr.attribute value attr l))
    ∧ (candidateName value = none →
      visitExpr enums oklist (Expr.attribute value attr l) = []) := by
  constructor
  · rintro ⟨cls, hcls⟩ hb
    rw [visitExpr_attribute, hcls]
    exact List.mem_append_right _ hb
  · intro hnone
    rw [visitExpr_attribute, hnone]

/-- C3 counterexample: with registry `{Foo ↦ {a}}`, the node `f(Foo.bad).x`
is visited but traversal does not descend into its call base, so the nested
defective access `Foo.bad` (flagged when visited directly, second conjunct)
is never reported. -/
theorem C3_counterexample :
    visitExpr [("Foo", ({"a"} : Finset String))] {"name"}
      (Expr.attribute
        (Expr.call (Expr.name "f") [Expr.attribute (Expr.name "Foo") "bad" 1])
        "x" 2) = []
    ∧ visitExpr [("Foo", ({"a"} : Finset String))] {"name"}
        (Expr.attribute (Expr.name "Foo") "bad" 1)
      = [Expr.attribute (Expr.name "Foo") "bad" 1] :=
  ⟨rfl, rfl⟩

theorem C3_descent_witness :
    Expr.attribute (Expr.name "Foo") "bad" 1
      ∈ visitExpr [("Foo", ({"a"} : Finset String))] {"name"}
        (Expr.attribute (Expr.attribute (Expr.name "Foo") "bad" 1) "x" 2) :=
  (C3_descent_amended [("Foo", ({"a"} : Finset String))] {"name"}
      (Expr.attribute (Expr.name "Foo") "bad" 1) "x" 2
      (Expr.attribute (Expr.name "Foo") "bad" 1)).1
    ⟨"bad", rfl⟩ (List.mem_singleton_self _)

theorem detect_duplicates_eq_none (names : List String) (h : names.Nodup) :
    detect_duplicates names = none := by
  unfold detect_duplicates
  rw [List.find?_eq_none]
  intro x hx
  simpa using List.nodup_iff_count_le_one.mp h x

theorem mem_assignmentTargetNames (body : List Stmt) (x : String) :
    x ∈ assignmentTargetNames body
    ↔ ∃ targets v, Stmt.assign targets v ∈ body ∧ Expr.name x ∈ targets := by
  unfold assignmentTargetNames
  simp only [List.mem_filterMap, List.mem_flatten]
  constructor
  · rintro ⟨t, ⟨ts, ⟨⟨s, hs, hmatch⟩, hts⟩⟩, hname⟩
    cases t with
    | name id =>
      cases s with
      | assign targets v =>
        simp at hmatch hname
        subst hmatch
        subst hname
        exact ⟨_, v, hs, hts⟩
      | classDef nm bases body2 => simp at hmatch
      | functionDef nm body2 => simp at hmatch
      | exprStmt v => simp at hmatch
      | pass => simp at hmatch
    | «attribute» v a ln => simp at hname
    | call f args => simp at hname
    | subscript v sl => simp at hname
    | constant => simp at hname
    | tuple elts => simp at hname
  · rintro ⟨targets, v, hmem, hname⟩
    exact ⟨Expr.name x, ⟨targets, ⟨⟨Stmt.assign targets v, hmem, rfl⟩, hname⟩⟩, rfl⟩

/-- C5: for a class body whose plain-identifier assignment targets are not
repeated, the extracted member set is exactly the set of plain-identifier
targets of its direct simple assignments. -/
theorem C5_assignment_names (body : List Stmt) (x : String)
    (h : (assignmentTargetNames body).Nodup) :
    assignment_names body = .ok (assignmentTargetNames body).toFinset
    ∧ (x ∈ (assignmentTargetNames body).toFinset
        ↔ ∃ targets v, Stmt.assign targets v ∈ body ∧ Expr.name x ∈ targets) := by
  constructor
  · unfold assignment_names
    simp only [detect_duplicates_eq_none _ h]
  · rw [List.mem_toFinset]
    exact mem_assignmentTargetNames body x

theorem C5_assignment_names_witness :
    assignment_names
      [Stmt.assign [Expr.name "x", Expr.name "y",
          Expr.attribute (Expr.name "r") "s" 3] Expr.constant,
        Stmt.assign [Expr.name "z"] Expr.constant,
        Stmt.functionDef "something" [Stmt.assign [Expr.name "var"] Expr.constant]]
      = .ok ({"x", "y", "z"} : Finset String)
    ∧ ("y" ∈ ({"x", "y", "z"} : Finset String)
        ↔ ∃ targets v, Stmt.assign targets v
              ∈ [Stmt.assign [Expr.name "x", Expr.name "y",
                    Expr.attribute (Expr.name "r") "s" 3] Expr.constant,
                  Stmt.assign [Expr.name "z"] Expr.constant,
                  Stmt.functionDef "something"
                    [Stmt.assign [Expr.name "var"] Expr.constant]]
            ∧ Expr.name "y" ∈ targets) := by
  have h := C5_assignment_names
    [Stmt.assign [Expr.name "x", Expr.name "y",
        Expr.attribute (Expr.name "r") "s" 3] Expr.constant,
      Stmt.assign [Expr.name "z"] Expr.constant,
      Stmt.functionDef "something" [Stmt.assign [Expr.name "var"] Expr.constant]]
    "y" (by decide)
  have e : (assignmentTargetNames
      [Stmt.assign [Expr.name "x", Expr.name "y",
          Expr.attribute (Expr.name "r") "s" 3] Expr.constant,
        Stmt.assign [Expr.name "z"] Expr.constant,
        Stmt.functionDef "something" [Stmt.assign [Expr.name "var"] Expr.constant]]).toFinset
      = ({"x", "y", "z"} : Finset String) := by decide
  rw [e] at h
  exact h

/-- C7: `is_enum_class` is true exactly on class-declaration nodes with a
plain base identifier literally equal to `"Enum"`; a dotted base such as
`enum.Enum` does not count (second conjunct). -/
theorem C7_is_enum_class_iff :
    (∀ n : Node, is_enum_class n = true
      ↔ ∃ nm bases body, n = .stmt (.classDef nm bases body)
          ∧ Expr.name "Enum" ∈ bases)
    ∧ is_enum_class (.stmt (.classDef "C"
        [Expr.attribute (Expr.name "enum") "Enum" 1] [])) = false := by
  constructor
  · intro n
    match n with
    | .expr e => simp [is_enum_class]
    | .stmt (.classDef nm bases body) =>
      simp only [is_enum_class, List.any_eq_true]
      constructor
      · rintro ⟨base, hmem, hbase⟩
        refine ⟨nm, bases, body, rfl, ?_⟩
        cases base <;> simp_all
      · rintro ⟨nm2, bases2, body2, heq, hmem⟩
        obtain ⟨rfl, rfl, rfl⟩ : nm = nm2 ∧ bases = bases2 ∧ body = body2 := by
          simpa using heq
        exact ⟨Expr.name "Enum", hmem, by simp⟩
    | .stmt (.assign ts v) => simp [is_enum_class]
    | .stmt (.functionDef nm body) => simp [is_enum_class]
    | .stmt (.exprStmt v) => simp [is_enum_class]
    | .stmt .pass => simp [is_enum_class]
  · rfl

theorem any_key_of_dictGet? (env : Registry) (nm : String)
    (v : Finset String) (h : dictGet? env nm = some v) :
    env.any (fun p => p.1 == nm) = true := by
  unfold dictGet? at h
  rcases Option.map_eq_some'.mp h with ⟨p, hfind, -⟩
  have hp := List.find?_some hfind
  exact List.any_eq_true.mpr ⟨p, List.mem_of_find?_eq_some hfind, hp⟩

theorem map_overwrite_eq_self (env : Registry) (nm : String) (v : Finset String)
    (hnd : (env.map Prod.fst).Nodup) (h : dictGet? env nm = some v) :
    env.map (fun p => if p.1 == nm then (nm, v) else p) = env := by
  induction env with
  | nil => simp [dictGet?] at h
  | cons p rest ih =>
    obtain ⟨k, w⟩ := p
    simp only [List.map_cons] at hnd ⊢
    rw [List.nodup_cons] at hnd
    by_cases hk : k = nm
    · subst hk
      have hw : w = v := by
        simp [dictGet?] at h
        exact h
      subst hw
      simp only [beq_self_eq_true, if_true]
      congr 1
      have : ∀ q ∈ rest, (if q.1 == k then (k, w) else q) = q := by
        intro q hq
        have : q.1 ≠ k := by
          intro hqk
          exact hnd.1 (hqk ▸ List.mem_map_of_mem Prod.fst hq)
        simp [this]
      rw [List.map_congr_left this]
      simp
    · have hbeq : (k == nm) = false := beq_eq_false_iff_ne.mpr hk
      simp only [hbeq, if_false]
      congr 1
      apply ih hnd.2
      simpa [dictGet?, hbeq] using h

theorem dictInsert_existing_eq_self (env : Registry) (nm : String)
    (v : Finset String) (hnd : (env.map Prod.fst).Nodup)
    (h : dictGet? env nm = some v) :
    dictInsert env nm v = env := by
  unfold dictInsert
  rw [any_key_of_dictGet? env nm v h]
  simpa using map_overwrite_eq_self env nm v hnd h

/-- One-step unfolding of `visit_ClassDef` in the collector. -/
theorem collectStmt_classDef (env : Registry) (nm : String)
    (bases : List Expr) (body : List Stmt) :
    collectStmt env (.classDef nm bases body)
    = if is_enum_class (.stmt (.classDef nm bases body)) then
        match assignment_names body with
        | .error e => (env, some e)
        | .ok values =>
          match dictGet? env nm with
          | some old =>
            if old ≠ values then (env, some (.duplicateEnumClassError nm))
            else collectStmts (dictInsert env nm values) body
          | none => collectStmts (dictInsert env nm values) body
      else (env, none) := rfl

/-- C6: revisiting a registered class name accepts an identical member set
silently, leaving the registry unchanged and descending into the body as for
a fresh declaration, and raises `DuplicateEnumClassError` (keeping the
earlier entry) when the member sets differ. -/
theorem C6_redeclaration (env : Registry) (nm : String) (bases : List Expr)
    (body : List Stmt) (values old : Finset String)
    (henum : is_enum_class (.stmt (.classDef nm bases body)) = true)
    (hvals : assignment_names body = .ok values)
    (hnd : (env.map Prod.fst).Nodup)
    (hold : dictGet? env nm = some old) :
    collectStmt env (.classDef nm bases body)
    = if old = values then collectStmts env body
      else (env, some (.duplicateEnumClassError nm)) := by
  rw [collectStmt_classDef, if_pos henum, hvals]
  simp only [hold]
  by_cases hov : old = values
  · subst hov
    rw [dictInsert_existing_eq_self env nm old hnd hold]
    simp
  · simp [hov]

theorem C6_redeclaration_witness :
    collectStmt [("Foo", ({"a"} : Finset String))]
      (.classDef "Foo" [.name "Enum"] [.assign [.name "a"] .constant])
    = if ({"a"} : Finset String) = ({"a"} : Finset String) then
        collectStmts [("Foo", ({"a"} : Finset String))]
          [.assign [.name "a"] .constant]
      else ([("Foo", ({"a"} : Finset String))],
        some (.duplicateEnumClassError "Foo")) :=
  C6_redeclaration [("Foo", {"a"})] "Foo" [.name "Enum"]
    [.assign [.name "a"] .constant] {"a"} {"a"} rfl (by decide) (by decide)
    (by decide)

/-- C9: the collector returns early on a non-enum class (nothing inside its
body is collected), while enum classes at top level, inside a function body,
or nested inside another enum class are collected. -/
theorem C9_descend_only_into_enum_classes (env : Registry) (nm : String)
    (bases : List Expr) (body : List Stmt)
    (h : is_enum_class (.stmt (.classDef nm bases body)) = false) :
    collectStmt env (.classDef nm bases body) = (env, none)
    ∧ (collectStmts [] [.classDef "Outer" []
          [.classDef "Inner" [.name "Enum"] [.assign [.name "a"] .constant]]]).1
        = []
    ∧ (collectStmts []
          [.classDef "Inner" [.name "Enum"] [.assign [.name "a"] .constant]]).1
        = [("Inner", {"a"})]
    ∧ (collectStmts [] [.functionDef "f"
          [.classDef "Inner" [.name "Enum"] [.assign [.name "a"] .constant]]]).1
        = [("Inner", {"a"})]
    ∧ (collectStmts [] [.classDef "Outer" [.name "Enum"]
          [.assign [.name "x"] .constant,
            .classDef "Inner" [.name "Enum"] [.assign [.name "a"] .constant]]]).1
        = [("Outer", {"x"}), ("Inner", {"a"})] := by
  refine ⟨?_, by decide, by decide, by decide, by decide⟩
  rw [collectStmt_classDef]
  simp [h]

theorem C9_witness :
    collectStmt [("E", ({"m"} : Finset String))]
      (.classDef "NotAnEnum" []
        [.classDef "Inner" [.name "Enum"] [.assign [.name "a"] .constant]])
    = ([("E", ({"m"} : Finset String))], none)
    ∧ (collectStmts [] [.classDef "Outer" []
          [.classDef "Inner" [.name "Enum"] [.assign [.name "a"] .constant]]]).1
        = []
    ∧ (collectStmts []
          [.classDef "Inner" [.name "Enum"] [.assign [.name "a"] .constant]]).1
        = [("Inner", {"a"})]
    ∧ (collectStmts [] [.functionDef "f"
          [.classDef "Inner" [.name "Enum"] [.assign [.name "a"] .constant]]]).1
        = [("Inner", {"a"})]
    ∧ (collectStmts [] [.classDef "Outer" [.name "Enum"]
          [.assign [.name "x"] .constant,
            .classDef "Inner" [.name "Enum"] [.assign [.name "a"] .constant]]]).1
        = [("Outer", {"x"}), ("Inner", {"a"})] :=
  C9_descend_only_into_enum_classes [("E", {"m"})] "NotAnEnum" []
    [.classDef "Inner" [.name "Enum"] [.assign [.name "a"] .constant]] rfl

/-- C4 (amended): when a file's collection pass raises, the registry keeps
every entry written before the exception (there is no rollback), exactly one
warning is logged, and the fold continues over the remaining files. -/
theorem C4_partial_collection_kept (f : PyFile) (m : Module)
    (env env2 : Registry) (log : List LogEvent) (e : CollectError)
    (rest : List PyFile) (hf : f.tree = some m)
    (hc : collectStmts env m = (env2, some e)) :
    (f :: rest).foldl collectOne (env, log)
      = rest.foldl collectOne (env2, log ++ [warnOf e]) := by
  rw [List.foldl_cons]
  congr 1
  unfold collectOne
  rw [hf]
  simp only [hc]

/-- C4 counterexample: a single file declaring enum class `A` and then enum
class `B` with a duplicated item `y`; the registry before the file is empty,
but after the file it still holds `A` — the partial collection is not
discarded as the claim requires. -/
theorem C4_counterexample :
    (collect_enums [⟨"dup.py", "", some
        [.classDef "A" [.name "Enum"] [.assign [.name "x"] .constant],
          .classDef "B" [.name "Enum"]
            [.assign [.name "y"] .constant,
              .assign [.name "y"] .constant]]⟩]).1
      = [("A", {"x"})]
    ∧ (collect_enums [⟨"dup.py", "", some
        [.classDef "A" [.name "Enum"] [.assign [.name "x"] .constant],
          .classDef "B" [.name "Enum"]
            [.assign [.name "y"] .constant,
              .assign [.name "y"] .constant]]⟩]).2
      = [.duplicateItemWarning "y"]
    ∧ ([("A", ({"x"} : Finset String))] : Registry) ≠ ([] : Registry) :=
  ⟨by decide, by decide, by decide⟩

theorem C4_witness :
    ([⟨"dup.py", "", some
        [.classDef "A" [.name "Enum"] [.assign [.name "x"] .constant],
          .classDef "B" [.name "Enum"]
            [.assign [.name "y"] .constant,
              .assign [.name "y"] .constant]]⟩] : List PyFile).foldl
      collectOne ([], [])
      = ([] : List PyFile).foldl collectOne
          ([("A", {"x"})], [] ++ [warnOf (.duplicateEnumItemError "y")]) :=
  C4_partial_collection_kept _ _ [] [("A", {"x"})] []
    (.duplicateEnumItemError "y") [] rfl (by decide)

/-- C2 (amended): the declaration phase catches a parse failure, logs it,
contributes nothing for that file and continues; the usage phase has no such
handler — a parse failure of any file in its list escapes and aborts the
whole `check_files` run. -/
theorem C2_parse_failure_phases (f : PyFile) (rest : List PyFile)
    (env : Registry) (log : List LogEvent) (enums : Registry)
    (oklist : Finset String) (files : List PyFile)
    (hf : f.tree = none) (hmem : f ∈ files) :
    ((f :: rest).foldl collectOne (env, log)
      = rest.foldl collectOne (env, log ++ [.parseWarning f.name]))
    ∧ ∃ e, check_files enums oklist files = .error e := by
  constructor
  · rw [List.foldl_cons]
    congr 1
    unfold collectOne
    rw [hf]
  · induction files with
    | nil => cases hmem
    | cons g grest ih =>
      rcases List.mem_cons.mp hmem with rfl | hmem2
      · exact ⟨.parseFailure f.name, by simp [check_files, checkfile, hf]⟩
      · cases hg : checkfile enums oklist g with
        | error e => exact ⟨e, by simp [check_files, hg]⟩
        | ok bad =>
          cases hr : results bad g.code with
          | error e => exact ⟨e, by simp [check_files, hg, hr]⟩
          | ok pairs =>
            obtain ⟨e, he⟩ := ih hmem2
            exact ⟨e, by simp [check_files, hg, hr, he]⟩

/-- C2 counterexample: a good file followed by an unparsable file.  The
declaration phase skips the bad file with a warning and keeps going, but the
usage phase aborts the entire run with the escaped parse failure instead of
logging and continuing as the claim states. -/
theorem C2_counterexample :
    collect_enums
      [⟨"good.py", "class Foo(Enum):\n    a = 1", some
          [.classDef "Foo" [.name "Enum"] [.assign [.name "a"] .constant]]⟩,
        ⟨"bad.py", "(", none⟩]
      = ([("Foo", {"a"})], [.parseWarning "bad.py"])
    ∧ check_files [("Foo", {"a"})] {"name"}
        [⟨"good.py", "class Foo(Enum):\n    a = 1", some
            [.classDef "Foo" [.name "Enum"] [.assign [.name "a"] .constant]]⟩,
          ⟨"bad.py", "(", none⟩]
      = .error (.parseFailure "bad.py") :=
  ⟨by decide, by decide⟩

theorem C2_witness :
    (([⟨"bad.py", "(", none⟩] : List PyFile).foldl collectOne ([], [])
      = ([] : List PyFile).foldl collectOne
          ([], [] ++ [.parseWarning "bad.py"]))
    ∧ ∃ e, check_files [] ∅ [⟨"bad.py", "(", none⟩] = .error e :=
  C2_parse_failure_phases ⟨"bad.py", "(", none⟩ [] [] [] [] ∅
    [⟨"bad.py", "(", none⟩] rfl (List.mem_singleton_self _)

theorem resultsGo_ok (codelines : List String) (badnodes : List Expr)
    (h : ∀ b ∈ badnodes, b.lineno - 1 < codelines.length) :
    resultsGo codelines badnodes
      = .ok (badnodes.map fun b =>
          (b.lineno, codelines.getD (b.lineno - 1) "")) := by
  induction badnodes with
  | nil => simp [resultsGo]
  | cons b rest ih =>
    have hb := h b (List.mem_cons_self b rest)
    unfold resultsGo
    rw [List.getElem?_eq_getElem hb,
      ih (fun x hx => h x (List.mem_cons_of_mem _ hx))]
    simp [List.getD_eq_getElem?_getD, List.getElem?_eq_getElem hb]

theorem results_ok (badnodes : List Expr) (code : String)
    (h : ∀ b ∈ badnodes,
      1 ≤ b.lineno ∧ b.lineno ≤ (splitLines code).length) :
    results badnodes code
      = .ok (badnodes.map fun b =>
          (b.lineno, (splitLines code).getD (b.lineno - 1) "")) := by
  unfold results
  cases badnodes with
  | nil => simp
  | cons b rest =>
    simp only [List.isEmpty_cons, Bool.false_eq_true, if_false, List.map_cons]
    apply resultsGo_ok
    intro x hx
    have := h x hx
    omega

/-- C8: after checking one file, the summary is the flagged-node count paired
with the number of distinct flagged line numbers, and the verbose results
pair each flagged node, in traversal order, with the source line at its
1-indexed line number. -/
theorem C8_summary_and_results (enums : Registry) (oklist : Finset String)
    (m : Module) (code : String)
    (h : ∀ b ∈ visitModule enums oklist m,
      1 ≤ b.lineno ∧ b.lineno ≤ (splitLines code).length) :
    summary (visitModule enums oklist m)
      = ((visitModule enums oklist m).length,
          ((visitModule enums oklist m).map Expr.lineno).dedup.length)
    ∧ results (visitModule enums oklist m) code
      = .ok ((visitModule enums oklist m).map
          fun b => (b.lineno, (splitLines code).getD (b.lineno - 1) "")) := by
  refine ⟨?_, results_ok _ _ h⟩
  unfold summary
  rw [List.card_toFinset]

theorem C8_witness :
    summary (visitModule [("Foo", ({"a"} : Finset String))] {"name"}
        [.exprStmt (.attribute (.name "Foo") "b" 1),
          .exprStmt (.attribute (.name "Foo") "c" 1),
          .exprStmt (.attribute (.name "Foo") "d" 2)])
      = ((visitModule [("Foo", ({"a"} : Finset String))] {"name"}
          [.exprStmt (.attribute (.name "Foo") "b" 1),
            .exprStmt (.attribute (.name "Foo") "c" 1),
            .exprStmt (.attribute (.name "Foo") "d" 2)]).length,
          ((visitModule [("Foo", ({"a"} : Finset String))] {"name"}
            [.exprStmt (.attribute (.name "Foo") "b" 1),
              .exprStmt (.attribute (.name "Foo") "c" 1),
              .exprStmt (.attribute (.name "Foo") "d" 2)]).map
            Expr.lineno).dedup.length)
    ∧ results (visitModule [("Foo", ({"a"} : Finset String))] {"name"}
        [.exprStmt (.attribute (.name "Foo") "b" 1),
          .exprStmt (.attribute (.name "Foo") "c" 1),
          .exprStmt (.attribute (.name "Foo") "d" 2)])
        "Foo.b; Foo.c\nFoo.d"
      = .ok ((visitModule [("Foo", ({"a"} : Finset String))] {"name"}
          [.exprStmt (.attribute (.name "Foo") "b" 1),
            .exprStmt (.attribute (.name "Foo") "c" 1),
            .exprStmt (.attribute (.name "Foo") "d" 2)]).map
          fun b => (b.lineno,
            (splitLines "Foo.b; Foo.c\nFoo.d").getD (b.lineno - 1) "")) :=
  C8_summary_and_results [("Foo", {"a"})] {"name"}
    [.exprStmt (.attribute (.name "Foo") "b" 1),
      .exprStmt (.attribute (.name "Foo") "c" 1),
      .exprStmt (.attribute (.name "Foo") "d" 2)]
    "Foo.b; Foo.c\nFoo.d" (by decide)

/-- C10: under the precondition that every flagged node's line number is
between 1 and the number of separator-delimited lines of the file text, the
unchecked indexing `codelines[lineno - 1]` in `results` is always in bounds
and the `IndexError` branch is unreachable. -/
theorem C10_results_no_index_error (badnodes : List Expr) (code : String)
    (h : ∀ b ∈ badnodes,
      1 ≤ b.lineno ∧ b.lineno ≤ (splitLines code).length) :
    ∃ pairs, results badnodes code = .ok pairs :=
  ⟨_, results_ok badnodes code h⟩

theorem C10_witness :
    ∃ pairs, results [Expr.attribute (Expr.name "Foo") "bad" 2]
      "line one\nFoo.bad" = .ok pairs :=
  C10_results_no_index_error [Expr.attribute (Expr.name "Foo") "bad" 2]
    "line one\nFoo.bad" (by decide)
end Enumchecker
